import Mathlib

/-!
Verification development for the `snowflake` distributed 64-bit ID generator.

The Go sources are shallowly embedded: machine `int64` values are modelled as
`Int` with explicit two's-complement wrapping (`wrap64`) at the operations
where the Go code can overflow, `time.Duration` values are modelled as `Int`
nanoseconds, strings as `List Char`, and byte slices as `List Nat`.  The
generator's reads of the monotonic clock and of the cancellation context are
modelled by oracles `clock : Nat → Int` (successive millisecond readings) and
`cancel : Nat → Bool` (successive context polls); unbounded busy-wait loops
take a fuel parameter and report divergence as `none`.
-/

deriving instance DecidableEq for Except

namespace Snowflake

/-! ## Two's-complement int64 primitives -/

/-- The bit pattern of an `int64` value, as a natural number below `2^64`. -/
def bits64 (x : Int) : Nat := (x % (2 ^ 64 : Int)).toNat

/-- Reinterpret a 64-bit pattern as a signed `int64` value. -/
def fromBits64 (n : Nat) : Int :=
  if n < 2 ^ 63 then (n : Int) else (n : Int) - 2 ^ 64

/-- Two's-complement wrap-around of an exact integer into `int64` range. -/
def wrap64 (x : Int) : Int := fromBits64 (bits64 x)

/-- Go `<<` on `int64` (shifts bits out the top, i.e. wraps). -/
def shl64 (x : Int) (s : Nat) : Int := wrap64 (x * 2 ^ s)

/-- Go `>>` on `int64`: arithmetic right shift, i.e. floor division by `2^s`. -/
def shr64 (x : Int) (s : Nat) : Int := x / 2 ^ s

/-- Go `&` on `int64` against the low-`k`-bits mask `2^k - 1`. -/
def andMask64 (x : Int) (k : Nat) : Int := x % 2 ^ k

/-- Go `|` on `int64`. -/
def or64 (a b : Int) : Int := fromBits64 (Nat.lor (bits64 a) (bits64 b))

/-- Go `+` on `int64` (wrapping). -/
def add64 (a b : Int) : Int := wrap64 (a + b)

/-- Go `*` on `int64` (wrapping). -/
def mul64 (a b : Int) : Int := wrap64 (a * b)

/-! ## Bit layout descriptor (layout.go)

`time.Duration` is an `int64` count of nanoseconds; `Duration.Milliseconds()`
truncates toward zero.  All durations appearing here are non-negative, where
every division convention agrees, so Go's truncating division is modelled by
`Int.tdiv`. -/

/-- Go `time.Duration.Milliseconds()`: nanoseconds divided by `10^6`,
truncating toward zero. -/
def durMilliseconds (ns : Int) : Int := Int.tdiv ns 1000000

/-- `BitLayout` from layout.go: how the 63 usable bits are allocated.
`timeUnit` is the `time.Duration` field, in nanoseconds. -/
structure BitLayout where
  timestampBits : Int
  workerBits : Int
  sequenceBits : Int
  timeUnit : Int
  deriving DecidableEq, Repr

/-- Errors of the embedded code, collapsed to their identity; the Go
`fmt.Errorf` message strings are irrelevant to the claims. -/
inductive LayoutError
  | invalidBitLayout
  | workerIDTooLarge
  deriving DecidableEq, Repr

/-- `BitLayout.Validate` from layout.go, check for check in source order. -/
def BitLayout.Validate (l : BitLayout) : Except LayoutError Unit :=
  if l.timestampBits < 0 then .error .invalidBitLayout
  else if l.workerBits < 0 then .error .invalidBitLayout
  else if l.sequenceBits < 0 then .error .invalidBitLayout
  else if l.timestampBits + l.workerBits + l.sequenceBits ≠ 63 then
    .error .invalidBitLayout
  else if l.timestampBits < 38 ∨ l.timestampBits > 42 then .error .invalidBitLayout
  else if l.workerBits < 8 ∨ l.workerBits > 18 then .error .invalidBitLayout
  else if l.sequenceBits < 6 ∨ l.sequenceBits > 14 then .error .invalidBitLayout
  else if l.timeUnit ≤ 0 then .error .invalidBitLayout
  else .ok ()

/-- `BitLayout.CalculateShifts`: `(timestampShift, workerShift, maxWorker,
maxSequence)`.  The Go shifts `1 << bits` act on small validated bit counts,
where they are exact powers of two. -/
def BitLayout.CalculateShifts (l : BitLayout) : Int × Int × Int × Int :=
  (l.sequenceBits + l.workerBits, l.sequenceBits,
   2 ^ l.workerBits.toNat - 1, 2 ^ l.sequenceBits.toNat - 1)

/-- `ValidateWorkerID` from layout.go. -/
def BitLayout.ValidateWorkerID (l : BitLayout) (workerID : Int) :
    Except LayoutError Unit :=
  let maxWorker := l.CalculateShifts.2.2.1
  if workerID < 0 ∨ workerID > maxWorker then .error .workerIDTooLarge
  else .ok ()

/-- `isPowerOfTwo` from layout.go: `n > 0 && n & (n-1) == 0`.  For positive
`n` the bitwise test holds exactly of powers of two. -/
def isPowerOfTwo (n : Int) : Bool :=
  n > 0 && Nat.land n.toNat (n.toNat - 1) == 0

/-- The trailing-zero-counting loop of `calculateTimeUnitShift`:
`for ms > 1 { ms >>= 1; shift++ }`, with enough fuel to run to
completion (each iteration halves the argument). -/
def countShiftFuel : Nat → Nat → Nat
  | 0, _ => 0
  | fuel + 1, n => if n ≤ 1 then 0 else 1 + countShiftFuel fuel (n / 2)

/-- The shift-counting loop; `n` itself is always enough fuel. -/
def countShiftLoop (n : Nat) : Nat := countShiftFuel n n

/-- `calculateTimeUnitShift` from layout.go: the right-shift amount for a
power-of-two time unit in milliseconds, or `-1` for the division fallback. -/
def calculateTimeUnitShift (timeUnit : Int) : Int :=
  let ms := durMilliseconds timeUnit
  if ms ≤ 0 ∨ ¬isPowerOfTwo ms then -1
  else (countShiftLoop ms.toNat : Int)

/-- `BitLayout.TimeUnitShift` from layout.go. -/
def BitLayout.TimeUnitShift (l : BitLayout) : Int :=
  calculateTimeUnitShift l.timeUnit

/-- One millisecond, as `time.Duration` nanoseconds. -/
def millisecond : Int := 1000000

/-- `LayoutDefault` (41 + 10 + 12, 1 ms). -/
def LayoutDefault : BitLayout := ⟨41, 10, 12, millisecond⟩

/-- `LayoutSuperior` (40 + 14 + 9, 1 ms). -/
def LayoutSuperior : BitLayout := ⟨40, 14, 9, millisecond⟩

/-- `LayoutExtreme` (39 + 17 + 7, 1 ms). -/
def LayoutExtreme : BitLayout := ⟨39, 17, 7, millisecond⟩

/-- `LayoutUltra` (39 + 15 + 9, 1 ms). -/
def LayoutUltra : BitLayout := ⟨39, 15, 9, millisecond⟩

/-- `LayoutLongLife` (42 + 12 + 9, 1 ms). -/
def LayoutLongLife : BitLayout := ⟨42, 12, 9, millisecond⟩

/-- `LayoutSonyflake` (39 + 16 + 8, 10 ms). -/
def LayoutSonyflake : BitLayout := ⟨39, 16, 8, 10 * millisecond⟩

/-- `LayoutUltimate` (40 + 16 + 7, 10 ms). -/
def LayoutUltimate : BitLayout := ⟨40, 16, 7, 10 * millisecond⟩

/-- `LayoutMegaScale` (40 + 17 + 6, 10 ms). -/
def LayoutMegaScale : BitLayout := ⟨40, 17, 6, 10 * millisecond⟩

/-! ## Generator (snowflake.go)

The generator's reads of the monotonic clock are modelled by an oracle
`clock : Nat → Int` giving the successive values of `currentMillis` (the
monotonic-safe wall-clock milliseconds), and the context's cancellation
state by an oracle `cancel : Nat → Bool` giving the successive results of
`ctx.Done()` polls (`select` branches taken).  Indices into both oracles are
threaded through every operation so that successive operations on one
generator can be composed. -/

/-- Go `&` on `int64` (general two's-complement bitwise and). -/
def and64 (a b : Int) : Int := fromBits64 (Nat.land (bits64 a) (bits64 b))

/-- `Epoch`: January 1, 2024 00:00:00 UTC in milliseconds. -/
def Epoch : Int := 1704067200000

/-- `WorkerIDBits` (default layout). -/
def WorkerIDBits : Nat := 10

/-- `SequenceBits` (default layout). -/
def SequenceBits : Nat := 12

/-- `MaxWorkerID = -1 ^ (-1 << 10) = 1023`. -/
def MaxWorkerID : Int := 2 ^ WorkerIDBits - 1

/-- `MaxSequence = -1 ^ (-1 << 12) = 4095`. -/
def MaxSequence : Int := 2 ^ SequenceBits - 1

/-- `TimestampShift = WorkerIDBits + SequenceBits = 22`. -/
def TimestampShift : Nat := WorkerIDBits + SequenceBits

/-- `WorkerIDShift = SequenceBits = 12`. -/
def WorkerIDShift : Nat := SequenceBits

/-- `DefaultMaxClockBackward = 5 * time.Millisecond`, in nanoseconds. -/
def DefaultMaxClockBackward : Int := 5 * millisecond

/-- `Config` from snowflake.go; durations in nanoseconds. -/
structure Config where
  workerID : Int
  epoch : Int
  maxClockBackward : Int
  enableMetrics : Bool
  layout : BitLayout
  deriving DecidableEq, Repr

/-- `DefaultConfig(workerID)`. -/
def DefaultConfig (workerID : Int) : Config :=
  ⟨workerID, Epoch, DefaultMaxClockBackward, true, LayoutDefault⟩

/-- Construction-time failures: a layout error or a `ConfigError`; of the
`ConfigError` context only the `Field` name is relevant to the claims. -/
inductive NewGenError
  | layoutErr (e : LayoutError)
  | configErr (field : String)
  deriving DecidableEq, Repr

/-- `Config.Validate`: defaults a zero layout to `LayoutDefault`, then checks
layout, worker id, epoch and tolerance; returns the (possibly defaulted)
config. -/
def Config.Validate (c : Config) : Except NewGenError Config :=
  let c :=
    if c.layout.timestampBits = 0 ∧ c.layout.workerBits = 0 ∧
        c.layout.sequenceBits = 0 then
      { c with layout := LayoutDefault }
    else c
  match c.layout.Validate with
  | .error e => .error (.layoutErr e)
  | .ok _ =>
    match c.layout.ValidateWorkerID c.workerID with
    | .error _ => .error (.configErr "WorkerID")
    | .ok _ =>
      if c.epoch ≤ 0 then .error (.configErr "Epoch")
      else if c.maxClockBackward < 0 then .error (.configErr "MaxClockBackward")
      else .ok c

/-- `ClockError` from errors.go (timing context of a clock-drift failure). -/
structure ClockError where
  currentTimestamp : Int
  lastTimestamp : Int
  driftMilliseconds : Int
  toleranceMilliseconds : Int
  workerID : Int
  recovered : Bool
  deriving DecidableEq, Repr

/-- `newClockError` from errors.go. -/
def newClockError (currentTs lastTs toleranceMs workerID : Int)
    (recovered : Bool) : ClockError :=
  ⟨currentTs, lastTs, lastTs - currentTs, toleranceMs, workerID, recovered⟩

/-- Errors surfaced by single-ID generation. -/
inductive GenError
  | contextCanceled
  | clockMovedBack (e : ClockError)
  deriving DecidableEq, Repr

/-- `Generator` state.  `waitTimeUs` accumulates wall-clock-dependent
microsecond counts in the source; the model counts the accumulation events
instead (the claims only ever allow or forbid changes to it). -/
structure Gen where
  customEpoch : Int
  workerID : Int
  sequence : Int
  lastTimestamp : Int
  maxClockBackward : Int
  timestampShift : Int
  workerShift : Int
  maxWorker : Int
  maxSequence : Int
  timeUnit : Int
  timeUnitShift : Int
  generated : Int
  clockBackward : Int
  clockBackwardErr : Int
  sequenceOverflow : Int
  waitTimeUs : Int
  deriving DecidableEq, Repr

/-- `NewWithConfig` from snowflake.go. -/
def NewWithConfig (cfg : Config) : Except NewGenError Gen :=
  match cfg.Validate with
  | .error e => .error e
  | .ok cfg =>
    let s := cfg.layout.CalculateShifts
    .ok
    { customEpoch := Int.tdiv cfg.epoch (durMilliseconds cfg.layout.timeUnit)
      workerID := cfg.workerID
      sequence := 0
      lastTimestamp := 0
      maxClockBackward := cfg.maxClockBackward
      timestampShift := s.1
      workerShift := s.2.1
      maxWorker := s.2.2.1
      maxSequence := s.2.2.2
      timeUnit := cfg.layout.timeUnit
      timeUnitShift := cfg.layout.TimeUnitShift
      generated := 0, clockBackward := 0, clockBackwardErr := 0
      sequenceOverflow := 0, waitTimeUs := 0 }

/-- The body of `Generator.currentTimestamp`, reading only the two cached
fields it uses: the oracle supplies `currentMillis`; the conversion to time
units uses the cached shift or the division fallback.  Returns the reading
and the next clock index. -/
def currentTimestampRaw (timeUnitShift timeUnit : Int) (clock : Nat → Int)
    (ci : Nat) : Int × Nat :=
  let currentMillis := clock ci
  (if 0 ≤ timeUnitShift then shr64 currentMillis timeUnitShift.toNat
   else Int.tdiv currentMillis (durMilliseconds timeUnit), ci + 1)

/-- `Generator.currentTimestamp`. -/
def Gen.currentTimestamp (g : Gen) (clock : Nat → Int) (ci : Nat) :
    Int × Nat :=
  currentTimestampRaw g.timeUnitShift g.timeUnit clock ci

/-- Completed sleeps performed during one operation, with duration in
nanoseconds. -/
inductive WaitEvt
  | driftSleep (ns : Int)
  | overflowSleep (ns : Int)
  deriving DecidableEq, Repr

/-- The final busy-wait loop of `waitNextMillisWithContextInternal`:
poll the clock (yielding between polls) until it passes `lastTimestamp`.
The loop has no exit other than clock progress, so it takes fuel; `none`
models non-termination.  Note it never polls the context. -/
def busyWaitLoop (g : Gen) (clock : Nat → Int) :
    Nat → Nat → Option (Int × Nat)
  | _, 0 => none
  | ci, fuel + 1 =>
    let (now, ci') := g.currentTimestamp clock ci
    if now > g.lastTimestamp then some (now, ci')
    else busyWaitLoop g clock ci' fuel

/-- `waitNextMillisWithContextInternal`: hybrid sleep-then-busy-wait for the
next time unit.  On cancellation during the sleep it returns the current
timestamp immediately (with no error).  Returns the timestamp, updated
generator (wait-time metric), log, and oracle indices. -/
def waitNextInternal (g : Gen) (clock : Nat → Int) (cancel : Nat → Bool)
    (ci xi : Nat) (currentTime : Int) (fuel : Nat) :
    Option (Int × Gen × List WaitEvt × Nat × Nat) :=
  let nextTimeUnit := g.lastTimestamp + 1
  let timeToWait := nextTimeUnit - currentTime
  let sleepDuration := timeToWait * g.timeUnit
  if timeToWait > 0 ∧ sleepDuration > 100 * 1000 then
    if cancel xi then
      -- ctx.Done() during the sleep: return g.currentTimestamp(), no error
      let (ts, ci') := g.currentTimestamp clock ci
      some (ts, g, [], ci', xi + 1)
    else
      match busyWaitLoop g clock ci fuel with
      | none => none
      | some (now, ci') =>
        some (now, { g with waitTimeUs := g.waitTimeUs + 1 },
              [.overflowSleep (sleepDuration - 50 * 1000)], ci', xi + 1)
  else
    match busyWaitLoop g clock ci fuel with
    | none => none
    | some (now, ci') =>
      some (now, { g with waitTimeUs := g.waitTimeUs + 1 }, [], ci', xi)

/-- `waitNextMillisWithContext`: delegates to the internal wait and pairs the
result with a `nil` error unconditionally. -/
def waitNextMillisWithContext (g : Gen) (clock : Nat → Int)
    (cancel : Nat → Bool) (ci xi : Nat) (currentTime : Int) (fuel : Nat) :
    Option ((Int × Option GenError) × Gen × List WaitEvt × Nat × Nat) :=
  match waitNextInternal g clock cancel ci xi currentTime fuel with
  | none => none
  | some (ts, g', log, ci', xi') => some ((ts, none), g', log, ci', xi')

/-- Result of one generator operation: `result = none` models busy-wait
divergence (fuel exhaustion); oracle indices are returned for sequential
composition. -/
structure EmitResult where
  result : Option (Except GenError Int)
  gen : Gen
  log : List WaitEvt
  clockIdx : Nat
  cancelIdx : Nat
  deriving Repr

/-- Prepend the wait events already performed to an operation's result. -/
def withLog (log : List WaitEvt) (r : EmitResult) : EmitResult :=
  { r with log := log ++ r.log }

/-- Steps 4-9 of `generateInt64WithContext` (sequence handling, state update,
ID composition, metrics), after clock-drift reconciliation produced
`timestamp`. -/
def emitFinish (g : Gen) (clock : Nat → Int) (cancel : Nat → Bool)
    (timestamp : Int) (ci xi fuel : Nat) : EmitResult :=
  let step : Option (Except GenError Int × Gen × List WaitEvt × Nat × Nat) :=
    if timestamp = g.lastTimestamp then
      let seq := and64 (g.sequence + 1) g.maxSequence
      let g := { g with sequence := seq }
      if seq = 0 then
        let g := { g with sequenceOverflow := g.sequenceOverflow + 1 }
        match waitNextMillisWithContext g clock cancel ci xi timestamp fuel with
        | none => none
        | some ((ts, err), g', log', ci', xi') =>
          match err with
          | some e => some (.error e, g', log', ci', xi')
          | none => some (.ok ts, g', log', ci', xi')
      else some (.ok timestamp, g, [], ci, xi)
    else some (.ok timestamp, { g with sequence := 0 }, [], ci, xi)
  match step with
  | none => ⟨none, g, [], ci, xi⟩
  | some (.error e, g, log, ci, xi) => ⟨some (.error e), g, log, ci, xi⟩
  | some (.ok timestamp, g, log, ci, xi) =>
    let g := { g with lastTimestamp := timestamp }
    let id :=
      or64 (or64 (shl64 (timestamp - g.customEpoch) g.timestampShift.toNat)
                 (shl64 g.workerID g.workerShift.toNat))
           g.sequence
    let g := { g with generated := g.generated + 1 }
    ⟨some (.ok id), g, log, ci, xi⟩

/-- `generateInt64WithContext`: the single-ID generation algorithm. -/
def generateInt64WithContext (g : Gen) (clock : Nat → Int)
    (cancel : Nat → Bool) (ci xi fuel : Nat) : EmitResult :=
  -- fast-path context poll
  if cancel xi then ⟨some (.error .contextCanceled), g, [], ci, xi + 1⟩
  else
    let xi := xi + 1
    let (timestamp, ci) := g.currentTimestamp clock ci
    if timestamp < g.lastTimestamp then
      let g := { g with clockBackward := g.clockBackward + 1 }
      let diff := g.lastTimestamp - timestamp
      let toleranceInTimeUnits :=
        Int.tdiv (durMilliseconds g.maxClockBackward)
          (durMilliseconds g.timeUnit)
      if diff ≤ toleranceInTimeUnits then
        -- select { time.After(diff * timeUnit) | ctx.Done() }
        if cancel xi then
          ⟨some (.error .contextCanceled), g, [], ci, xi + 1⟩
        else
          let xi := xi + 1
          let (timestamp, ci) := g.currentTimestamp clock ci
          let g := { g with waitTimeUs := g.waitTimeUs + 1 }
          let log := [WaitEvt.driftSleep (diff * g.timeUnit)]
          if timestamp < g.lastTimestamp then
            let g := { g with clockBackwardErr := g.clockBackwardErr + 1 }
            ⟨some (.error (.clockMovedBack (newClockError timestamp
              g.lastTimestamp (durMilliseconds g.maxClockBackward)
              g.workerID false))), g, log, ci, xi⟩
          else withLog log (emitFinish g clock cancel timestamp ci xi fuel)
      else
        -- drift beyond tolerance: no sleep, re-check fails immediately
        let g := { g with clockBackwardErr := g.clockBackwardErr + 1 }
        ⟨some (.error (.clockMovedBack (newClockError timestamp
          g.lastTimestamp (durMilliseconds g.maxClockBackward)
          g.workerID false))), g, [], ci, xi⟩
    else emitFinish g clock cancel timestamp ci xi fuel

/-- Errors surfaced by batch generation (`ErrContextCanceled`, or the
`fmt.Errorf`-wrapped `ErrClockMovedBack`). -/
inductive BatchError
  | contextCanceled
  | clockMovedBack
  deriving DecidableEq, Repr

/-- The loop body of `GenerateBatch`, iterations `i, i+1, ..., i+remaining-1`.
Note that, unlike the single-ID path, this loop compares the drift against
`maxClockBackward.Milliseconds()` directly, wraps the sequence with the
package-level `MaxSequence`, and composes the ID with the package-level
`TimestampShift` and `WorkerIDShift` of the default layout. -/
def generateBatchLoop (clock : Nat → Int) (cancel : Nat → Bool) (fuel : Nat) :
    Nat → Nat → Gen → List Int → Nat → Nat →
    Option (List Int × Option BatchError × Gen × Nat × Nat)
  | 0, _, g, ids, ci, xi => some (ids, none, g, ci, xi)
  | remaining + 1, i, g, ids, ci, xi =>
    -- periodic context poll (every 100 IDs)
    let polled : Nat × Option (List Int × Option BatchError × Gen × Nat × Nat) :=
      if i % 100 = 0 then
        if cancel xi then (xi + 1, some (ids, some .contextCanceled, g, ci, xi + 1))
        else (xi + 1, none)
      else (xi, none)
    match polled with
    | (_, some out) => some out
    | (xi, none) =>
      let (timestamp, ci) := g.currentTimestamp clock ci
      -- clock-drift handling: either a continuation or an early error return
      let afterDrift : (Int × Gen × Nat × Nat) ⊕
          (List Int × Option BatchError × Gen × Nat × Nat) :=
        if timestamp < g.lastTimestamp then
          let g := { g with clockBackward := g.clockBackward + 1 }
          let diff := g.lastTimestamp - timestamp
          if diff ≤ durMilliseconds g.maxClockBackward then
            -- mutex released; select { time.After(diff * time.Millisecond) | ctx.Done() }
            if cancel xi then
              .inr (ids, some .contextCanceled, g, ci, xi + 1)
            else
              let xi := xi + 1
              let (timestamp, ci) := g.currentTimestamp clock ci
              let g := { g with waitTimeUs := g.waitTimeUs + 1 }
              if timestamp < g.lastTimestamp then
                let g := { g with clockBackwardErr := g.clockBackwardErr + 1 }
                .inr (ids, some .clockMovedBack, g, ci, xi)
              else .inl (timestamp, g, ci, xi)
          else
            -- diff above tolerance: no sleep, the re-check fails at once
            let g := { g with clockBackwardErr := g.clockBackwardErr + 1 }
            .inr (ids, some .clockMovedBack, g, ci, xi)
        else .inl (timestamp, g, ci, xi)
      match afterDrift with
      | .inr out => some out
      | .inl (timestamp, g, ci, xi) =>
        let seqStep : Option (Int × Gen × Nat) :=
          if timestamp = g.lastTimestamp then
            let seq := and64 (g.sequence + 1) MaxSequence
            let g := { g with sequence := seq }
            if seq = 0 then
              let g := { g with sequenceOverflow := g.sequenceOverflow + 1 }
              match busyWaitLoop g clock ci fuel with
              | none => none
              | some (now, ci') =>
                some (now, { g with waitTimeUs := g.waitTimeUs + 1 }, ci')
            else some (timestamp, g, ci)
          else some (timestamp, { g with sequence := 0 }, ci)
        match seqStep with
        | none => none
        | some (timestamp, g, ci) =>
          let g := { g with lastTimestamp := timestamp }
          let id :=
            or64 (or64 (shl64 (timestamp - g.customEpoch) TimestampShift)
                       (shl64 g.workerID WorkerIDShift))
                 g.sequence
          generateBatchLoop clock cancel fuel remaining (i + 1) g
            (ids ++ [id]) ci xi

/-- `GenerateBatch`: the `generated` metric is bumped once, by the final
count, only when the whole batch succeeds (the error returns in the source
precede the metric update). -/
def GenerateBatch (g : Gen) (clock : Nat → Int) (cancel : Nat → Bool)
    (count : Int) (ci xi fuel : Nat) :
    Option (List Int × Option BatchError × Gen × Nat × Nat) :=
  if count ≤ 0 then some ([], none, g, ci, xi)
  else
    match generateBatchLoop clock cancel fuel count.toNat 0 g [] ci xi with
    | none => none
    | some (ids, some e, g, ci, xi) => some (ids, some e, g, ci, xi)
    | some (ids, none, g, ci, xi) =>
      some (ids, none, { g with generated := g.generated + ids.length }, ci, xi)

/-! ## Identifier component extraction (id.go) -/

/-- `ID.TimestampWithLayout`: timestamp in milliseconds since the Unix epoch,
reconstructed through the layout's time unit. -/
def TimestampWithLayout (id : Int) (l : BitLayout) : Int :=
  let s := l.CalculateShifts
  shr64 id s.1.toNat * durMilliseconds l.timeUnit + Epoch

/-- `ID.WorkerWithLayout`. -/
def WorkerWithLayout (id : Int) (l : BitLayout) : Int :=
  let s := l.CalculateShifts
  and64 (shr64 id s.2.1.toNat) s.2.2.1

/-- `ID.SequenceWithLayout`. -/
def SequenceWithLayout (id : Int) (l : BitLayout) : Int :=
  let s := l.CalculateShifts
  and64 id s.2.2.2

/-! ## Encoding codecs (encoding.go)

Strings are `List Char`, byte slices are `List Nat` (each entry `< 256`).
The encoder loops emit digits least-significant first and reverse the
buffer. -/

/-- The encoder digit loop `for id > 0 { emit id % base; id /= base }`,
with enough fuel to run to completion (one unit per emitted digit). -/
def digitsFuel (b : Nat) : Nat → Nat → List Nat
  | 0, _ => []
  | fuel + 1, n => if n = 0 then [] else n % b :: digitsFuel b fuel (n / b)

/-- Least-significant-first base-`b` digits of `n`; `n` itself is always
enough fuel. -/
def digitsLSB (b n : Nat) : List Nat := digitsFuel b n n

/-- z-base-32 alphabet. -/
def encodeBase32Map : List Char := "ybndrfg8ejkmcpqxot1uwisza345h769".toList

/-- Bitcoin-style Base58 alphabet. -/
def encodeBase58Map : List Char :=
  "123456789abcdefghijkmnopqrstuvwxyzABCDEFGHJKLMNPQRSTUVWXYZ".toList

/-- Base62 alphabet. -/
def encodeBase62Map : List Char :=
  "0123456789abcdefghijklmnopqrstuvwxyzABCDEFGHIJKLMNOPQRSTUVWXYZ".toList

/-- Lowercase hexadecimal alphabet. -/
def encodeHexMap : List Char := "0123456789abcdef".toList

/-- The 256-entry decode tables built by `init()`: a character maps to its
index in the alphabet, `0xFF` (here `none`) otherwise. -/
def decodeMapLookup (al : List Char) (c : Char) : Option Nat := al.indexOf? c

/-- The hex decode table additionally maps `A`-`F` to `10`-`15`. -/
def decodeHexLookup (c : Char) : Option Nat :=
  if 'A' ≤ c ∧ c ≤ 'F' then some (10 + (c.toNat - 'A'.toNat))
  else decodeMapLookup encodeHexMap c

/-- Decoder failures (`ErrInvalidBase*`, `ErrStringTooLong`,
`ErrIntegerOverflow`). -/
inductive EncodingError
  | invalidEncoding
  | tooLong
  | overflow
  deriving DecidableEq, Repr

/-- Maximum string lengths (`MaxBase32Len` etc.). -/
def MaxBase32Len : Nat := 13
def MaxBase58Len : Nat := 11
def MaxBase62Len : Nat := 11
def MaxHexLen : Nat := 16

/-- The shared per-character loop of the four decoders: invalid-character
check, then the check-before-multiply guard `id > maxSafeValue`, then
`id = id*base + value` in wrapping `int64` arithmetic (for the power-of-two
bases the source shifts instead of multiplying, which is the same wrapped
product). -/
def decodeLoop (base : Int) (lookup : Char → Option Nat) (maxSafe : Int) :
    Int → List Char → Except EncodingError Int
  | id, [] => .ok id
  | id, c :: rest =>
    match lookup c with
    | none => .error .invalidEncoding
    | some v =>
      if id > maxSafe then .error .overflow
      else decodeLoop base lookup maxSafe (add64 (mul64 id base) (v : Int)) rest

/-- `decodeBase32`; `maxSafeValue = (1<<63 - 1) >> 5`. -/
def decodeBase32 (s : List Char) : Except EncodingError Int :=
  if s.length > MaxBase32Len then .error .tooLong
  else decodeLoop 32 (decodeMapLookup encodeBase32Map) ((2 ^ 63 - 1) / 2 ^ 5) 0 s

/-- `decodeBase58`; `maxSafeValue = (1<<63 - 1) / 58`. -/
def decodeBase58 (s : List Char) : Except EncodingError Int :=
  if s.length > MaxBase58Len then .error .tooLong
  else decodeLoop 58 (decodeMapLookup encodeBase58Map) ((2 ^ 63 - 1) / 58) 0 s

/-- `decodeBase62`; `maxSafeValue = (1<<63 - 1) / 62`. -/
def decodeBase62 (s : List Char) : Except EncodingError Int :=
  if s.length > MaxBase62Len then .error .tooLong
  else decodeLoop 62 (decodeMapLookup encodeBase62Map) ((2 ^ 63 - 1) / 62) 0 s

/-- `decodeHex`; `maxSafeValue = (1<<63 - 1) >> 4`. -/
def decodeHex (s : List Char) : Except EncodingError Int :=
  if s.length > MaxHexLen then .error .tooLong
  else decodeLoop 16 decodeHexLookup ((2 ^ 63 - 1) / 2 ^ 4) 0 s

/-- `encodeBase32`: `"y"` for non-positive input, a single character below
the base, else base-32 digits most-significant first. -/
def encodeBase32 (id : Int) : List Char :=
  if id ≤ 0 then ['y']
  else if id < 32 then [encodeBase32Map.getD id.toNat 'y']
  else ((digitsLSB 32 id.toNat).map (fun d => encodeBase32Map.getD d 'y')).reverse

/-- `encodeBase58`. -/
def encodeBase58 (id : Int) : List Char :=
  if id ≤ 0 then ['1']
  else if id < 58 then [encodeBase58Map.getD id.toNat '1']
  else ((digitsLSB 58 id.toNat).map (fun d => encodeBase58Map.getD d '1')).reverse

/-- `encodeBase62`. -/
def encodeBase62 (id : Int) : List Char :=
  if id ≤ 0 then ['0']
  else if id < 62 then [encodeBase62Map.getD id.toNat '0']
  else ((digitsLSB 62 id.toNat).map (fun d => encodeBase62Map.getD d '0')).reverse

/-- `encodeHex`: `"0"` for zero; the loop runs only while `id > 0`, so a
negative input yields the empty string. -/
def encodeHex (id : Int) : List Char :=
  if id = 0 then ['0']
  else if id < 0 then []
  else ((digitsLSB 16 id.toNat).map (fun d => encodeHexMap.getD d '0')).reverse

/-! ## Go standard-library models

`strconv.FormatInt` / `strconv.ParseInt` (explicit base, `bitSize = 64`),
`encoding/base64`, and `encoding/binary.BigEndian`, modelled from their
documented behavior. -/

/-- Digit characters of `strconv.FormatInt`. -/
def formatDigits : List Char := "0123456789abcdefghijklmnopqrstuvwxyz".toList

/-- `strconv.FormatInt` for a non-negative value (digits only). -/
def formatNat (b : Nat) (n : Nat) : List Char :=
  if n = 0 then ['0']
  else ((digitsLSB b n).map (fun d => formatDigits.getD d '0')).reverse

/-- `strconv.FormatInt`. -/
def goFormatInt (b : Nat) (i : Int) : List Char :=
  if i < 0 then '-' :: formatNat b (-i).toNat else formatNat b i.toNat

/-- Digit value accepted by `strconv.ParseUint` (both letter cases). -/
def goDigitVal (c : Char) : Option Nat :=
  if '0' ≤ c ∧ c ≤ '9' then some (c.toNat - '0'.toNat)
  else if 'a' ≤ c ∧ c ≤ 'z' then some (c.toNat - 'a'.toNat + 10)
  else if 'A' ≤ c ∧ c ≤ 'Z' then some (c.toNat - 'A'.toNat + 10)
  else none

/-- The exact numeric value of a digit string, or `none` on any character
that is not a digit below the base. -/
def digitsValue (b : Nat) (s : List Char) : Option Nat :=
  s.foldl (fun acc c =>
    acc.bind fun a => (goDigitVal c).bind fun v =>
      if v < b then some (a * b + v) else none) (some 0)

/-- `strconv.ParseInt(s, base, 64)` with an explicit base: optional sign,
non-empty digit string, exact overflow detection against the signed 64-bit
range. -/
def goParseInt (b : Nat) (s : List Char) : Except Unit Int :=
  if s = [] then .error ()
  else
    let (neg, ds) :=
      if s.headD ' ' = '+' then (false, s.tail)
      else if s.headD ' ' = '-' then (true, s.tail)
      else (false, s)
    if ds = [] then .error ()
    else
      match digitsValue b ds with
      | none => .error ()
      | some v =>
        if ¬neg ∧ v ≥ 2 ^ 63 then .error ()
        else if neg ∧ v > 2 ^ 63 then .error ()
        else .ok (if neg then -(v : Int) else (v : Int))

/-- Standard base64 alphabet. -/
def base64StdAlphabet : List Char :=
  "ABCDEFGHIJKLMNOPQRSTUVWXYZabcdefghijklmnopqrstuvwxyz0123456789+/".toList

/-- URL-safe base64 alphabet. -/
def base64URLAlphabet : List Char :=
  "ABCDEFGHIJKLMNOPQRSTUVWXYZabcdefghijklmnopqrstuvwxyz0123456789-_".toList

/-- `base64.Encoding.EncodeToString`: 3-byte groups into 4 characters, with
`=` padding on a short final group. -/
def b64Encode (al : List Char) : List Nat → List Char
  | [] => []
  | [a] => [al.getD (a / 4) 'A', al.getD (a % 4 * 16) 'A', '=', '=']
  | [a, b] => [al.getD (a / 4) 'A', al.getD (a % 4 * 16 + b / 16) 'A',
               al.getD (b % 16 * 4) 'A', '=']
  | a :: b :: c :: rest =>
    al.getD (a / 4) 'A' :: al.getD (a % 4 * 16 + b / 16) 'A' ::
    al.getD (b % 16 * 4 + c / 64) 'A' :: al.getD (c % 64) 'A' ::
    b64Encode al rest

/-- `base64.Encoding.DecodeString`: 4-character blocks into 3 bytes, padding
allowed only at the very end. -/
def b64Decode (al : List Char) : List Char → Option (List Nat)
  | [] => some []
  | c1 :: c2 :: c3 :: c4 :: rest =>
    match al.indexOf? c1, al.indexOf? c2 with
    | some v1, some v2 =>
      if c3 = '=' ∧ c4 = '=' ∧ rest = [] then some [v1 * 4 + v2 / 16]
      else if c4 = '=' ∧ rest = [] then
        match al.indexOf? c3 with
        | some v3 => some [v1 * 4 + v2 / 16, v2 % 16 * 16 + v3 / 4]
        | none => none
      else
        match al.indexOf? c3, al.indexOf? c4 with
        | some v3, some v4 =>
          (b64Decode al rest).map fun bs =>
            (v1 * 4 + v2 / 16) :: (v2 % 16 * 16 + v3 / 4) ::
            (v3 % 4 * 64 + v4) :: bs
        | _, _ => none
    | _, _ => none
  | _ => none

/-! ## Identifier value type: conversions, parsing, JSON (id.go) -/

/-- `ID.String()`: decimal representation. -/
def IDString (id : Int) : List Char := goFormatInt 10 id

/-- `ID.Bytes()`: the bytes of the decimal string (not the binary form). -/
def IDBytes (id : Int) : List Nat := (IDString id).map Char.toNat

/-- `ID.Base64()`: standard base64 of `id.Bytes()`. -/
def IDBase64 (id : Int) : List Char := b64Encode base64StdAlphabet (IDBytes id)

/-- `ID.Base64URL()`: URL-safe base64 of `id.Bytes()`. -/
def IDBase64URL (id : Int) : List Char :=
  b64Encode base64URLAlphabet (IDBytes id)

/-- `ID.IntBytes()`: 8-byte big-endian representation of the word. -/
def IntBytes (id : Int) : List Nat :=
  let n := bits64 id
  [n / 2 ^ 56 % 256, n / 2 ^ 48 % 256, n / 2 ^ 40 % 256, n / 2 ^ 32 % 256,
   n / 2 ^ 24 % 256, n / 2 ^ 16 % 256, n / 2 ^ 8 % 256, n % 256]

/-- `ParseString`: decimal parsing. -/
def ParseString (s : List Char) : Except Unit Int := goParseInt 10 s

/-- `ParseBytes`: decimal parsing of a byte slice. -/
def ParseBytes (bs : List Nat) : Except Unit Int :=
  ParseString (bs.map Char.ofNat)

/-- `ParseBase64`: standard base64 decode, then decimal parse of the bytes. -/
def ParseBase64 (s : List Char) : Except Unit Int :=
  match b64Decode base64StdAlphabet s with
  | none => .error ()
  | some bs => ParseBytes bs

/-- `ParseBase64URL`. -/
def ParseBase64URL (s : List Char) : Except Unit Int :=
  match b64Decode base64URLAlphabet s with
  | none => .error ()
  | some bs => ParseBytes bs

/-- `ParseIntBytes`: big-endian read of exactly 8 bytes, reinterpreted as a
signed word. -/
def ParseIntBytes (bs : List Nat) : Int :=
  fromBits64 (bs.foldl (fun acc b => acc * 256 + b) 0)

/-- `ID.MarshalJSON`: the decimal value wrapped in quotes. -/
def MarshalJSON (id : Int) : List Char := '"' :: (goFormatInt 10 id ++ ['"'])

/-- `ID.UnmarshalJSON`: rejects inputs shorter than 2 bytes, strips one pair
of surrounding quotes if present, then parses the decimal value. -/
def UnmarshalJSON (data : List Char) : Except Unit Int :=
  if data.length < 2 then .error ()
  else
    let str :=
      if data.headD ' ' = '"' ∧ data.getLastD ' ' = '"' then
        (data.drop 1).dropLast
      else data
    goParseInt 10 str

/-! ## Concrete scenarios used by the claims -/

/-- The generator `NewWithConfig` builds for worker `w` under
`LayoutExtreme` (39 + 17 + 7, 1 ms). -/
def extremeGen (w : Int) : Gen :=
  ⟨1704067200000, w, 0, 0, 5000000, 24, 7, 131071, 127, 1000000, 0,
   0, 0, 0, 0, 0⟩

/-- A default-layout generator state with the given `lastTimestamp` and
`sequence` (worker 0, default epoch and tolerance). -/
def defaultGenAt (last seq : Int) : Gen :=
  ⟨1704067200000, 0, seq, last, 5000000, 22, 12, 1023, 4095, 1000000, 0,
   0, 0, 0, 0, 0⟩

/-- A clock stuck at one millisecond past the default epoch. -/
def clockStuck : Nat → Int := fun _ => 1704067200001

/-- A context that never fires. -/
def ctxNever : Nat → Bool := fun _ => false

/-- A context that fires from the second poll on: the operation begins
un-cancelled and the signal arrives during its first wait. -/
def ctxAfterFirst : Nat → Bool := fun i => decide (1 ≤ i)

/-! ## Helper lemmas -/

theorem bits64_eq (x : Int) : (bits64 x : Int) = x % 2 ^ 64 := by
  have h : (0 : Int) ≤ x % 2 ^ 64 := Int.emod_nonneg x (by norm_num)
  simpa [bits64] using Int.toNat_of_nonneg h

theorem bits64_lt (x : Int) : bits64 x < 2 ^ 64 := by
  have h := Int.emod_lt_of_pos x (b := 2 ^ 64) (by norm_num)
  have h0 : (0 : Int) ≤ x % 2 ^ 64 := Int.emod_nonneg x (by norm_num)
  have := bits64_eq x
  omega

theorem wrap64_eq (x : Int) : wrap64 x = (x + 2 ^ 63) % 2 ^ 64 - 2 ^ 63 := by
  have h1 := bits64_eq x
  have h2 := bits64_lt x
  have h3 : x % 2 ^ 64 = (x % 2 ^ 64) := rfl
  unfold wrap64 fromBits64
  split <;> omega

theorem wrap64_of_mem (x : Int) (h1 : -(2 ^ 63) ≤ x) (h2 : x < 2 ^ 63) :
    wrap64 x = x := by
  rw [wrap64_eq]
  omega

theorem add64_wrap (a b : Int) : add64 (wrap64 a) b = wrap64 (a + b) := by
  rw [add64, wrap64_eq, wrap64_eq, wrap64_eq]
  omega

theorem digitsFuel_eq_digits (b : Nat) (hb : 1 < b) :
    ∀ fuel n, n ≤ fuel → digitsFuel b fuel n = Nat.digits b n := by
  intro fuel
  induction fuel with
  | zero => intro n hn; interval_cases n; simp [digitsFuel]
  | succ f ih =>
    intro n hn
    by_cases h0 : n = 0
    · simp [digitsFuel, h0]
    · rw [digitsFuel, if_neg h0, Nat.digits_def' hb (Nat.pos_of_ne_zero h0),
        ih (n / b) ?_]
      have := Nat.div_lt_self (Nat.pos_of_ne_zero h0) hb
      omega

theorem digitsLSB_eq_digits (b n : Nat) (hb : 1 < b) :
    digitsLSB b n = Nat.digits b n :=
  digitsFuel_eq_digits b hb n n le_rfl


/-! ## Claims -/

/-- C9: the bit-layout validator succeeds precisely on layouts whose
timestamp bits lie in [38,42], worker bits in [8,18], sequence bits in
[6,14], whose three fields sum to 63, and whose time unit is positive;
every other layout is rejected with a configuration error. -/
theorem validate_complete (l : BitLayout) :
    l.Validate = .ok () ↔
      (38 ≤ l.timestampBits ∧ l.timestampBits ≤ 42 ∧
       8 ≤ l.workerBits ∧ l.workerBits ≤ 18 ∧
       6 ≤ l.sequenceBits ∧ l.sequenceBits ≤ 14 ∧
       l.timestampBits + l.workerBits + l.sequenceBits = 63 ∧
       0 < l.timeUnit) := by
  unfold BitLayout.Validate
  split_ifs <;> simp_all <;> omega

/-- C10: each of the Base32, Base58, Base62 and Hex decoders maps the empty
string to identifier 0 with no error, and each matching encoder maps 0 to a
single-character string. -/
theorem empty_decodes_to_zero :
    decodeBase32 [] = .ok 0 ∧ decodeBase58 [] = .ok 0 ∧
    decodeBase62 [] = .ok 0 ∧ decodeHex [] = .ok 0 ∧
    (encodeBase32 0).length = 1 ∧ (encodeBase58 0).length = 1 ∧
    (encodeBase62 0).length = 1 ∧ (encodeHex 0).length = 1 := by decide

/-- C1: strict monotonic emission fails on the code.  On a generator
configured with the valid preset layout `LayoutExtreme` (39 + 17 + 7, 1 ms)
and worker 0, a successful single emission returns `16777216`
(`1 <<< 24`, composed with the generator's cached layout shifts), and an
immediately following successful batch emission in the same time unit
returns `4194305` (`1 <<< 22 ||| 1`, composed with the package-level
default-layout constants), which is smaller: the later emission does not
exceed the earlier one. -/
theorem batch_after_single_not_monotonic :
    NewWithConfig { DefaultConfig 0 with layout := LayoutExtreme }
      = .ok (extremeGen 0) ∧
    (generateInt64WithContext (extremeGen 0) clockStuck ctxNever 0 0 1).result
      = some (.ok 16777216) ∧
    (GenerateBatch (generateInt64WithContext (extremeGen 0) clockStuck
        ctxNever 0 0 1).gen clockStuck ctxNever 1 1 1 1).map
      (fun out => (out.1, out.2.1)) = some ([4194305], none) ∧
    (4194305 : Int) < 16777216 := by decide

/-- C2: batch emission does not use the generator's cached layout constants.
On a generator configured with the valid preset layout `LayoutExtreme`
(39 + 17 + 7, 1 ms) and worker 1, the first identifier of a successful
batch is `4198400 = 1 <<< 22 ||| 1 <<< 12` (the package-level default-layout
shifts), and extracting its worker component under `LayoutExtreme` yields
32800, not the configured worker 1: the layout round-trip fails. -/
theorem batch_ignores_cached_layout :
    NewWithConfig { DefaultConfig 1 with layout := LayoutExtreme }
      = .ok (extremeGen 1) ∧
    (GenerateBatch (extremeGen 1) clockStuck ctxNever 1 0 0 1).map
      (fun out => (out.1, out.2.1)) = some ([4198400], none) ∧
    WorkerWithLayout 4198400 LayoutExtreme = 32800 ∧
    (32800 : Int) ≠ 1 := by decide

/-- C3: cancellation during the sequence-overflow wait does not return
`Canceled`.  On a default-layout generator whose sequence is exhausted
(`sequence = 4095` at the current time unit), with a context that fires
during the first wait (the initial poll returns false, every later poll
true), the emission still returns a successful identifier `4194304` --
`waitNextMillisWithContext` pairs its result with a nil error
unconditionally -- and the generator's `sequence` is mutated from 4095
to 0, so the emitted word duplicates the sequence-0 word of that same
time unit. -/
theorem cancel_during_overflow_wait_still_emits :
    ctxAfterFirst 0 = false ∧ ctxAfterFirst 1 = true ∧
    (let r := generateInt64WithContext (defaultGenAt 1704067200001 4095)
        clockStuck ctxAfterFirst 0 0 5
     r.result = some (.ok 4194304) ∧
     r.result ≠ some (.error .contextCanceled) ∧
     r.gen.sequence = 0 ∧ r.gen.lastTimestamp = 1704067200001) := by decide

/-- C6: the Base62 decoder's check-before-multiply guard misses the signed
boundary.  The string "aZl8N0y58M8" consists of valid Base62 characters, is
within the length limit, and its numeric value is exactly `2^63` (above the
signed 64-bit positive range), yet `decodeBase62` returns the silently
wrapped negative value `-2^63` with no `IntegerOverflow` error. -/
theorem base62_overflow_silently_wraps :
    ("aZl8N0y58M8".toList.all
        (fun c => (encodeBase62Map.indexOf? c).isSome)) = true ∧
    "aZl8N0y58M8".length ≤ MaxBase62Len ∧
    ("aZl8N0y58M8".toList.foldl
        (fun a c => a * 62 + ((encodeBase62Map.indexOf? c).getD 0))
        (0 : Nat)) = 2 ^ 63 ∧
    decodeBase62 "aZl8N0y58M8".toList = .ok (-9223372036854775808) := by
  decide

/-- C7: `ID.Base64` does not operate on the 8-byte big-endian
representation.  For the identifier 1 the code produces "MQ==" -- the
standard base64 of the decimal-string bytes `[0x31]` -- whereas the base64
of the 8-byte big-endian representation is "AAAAAAAAAAE=". -/
theorem base64_uses_decimal_bytes :
    IDBase64 1 = "MQ==".toList ∧
    b64Encode base64StdAlphabet (IntBytes 1) = "AAAAAAAAAAE=".toList ∧
    IDBase64 1 ≠ b64Encode base64StdAlphabet (IntBytes 1) := by decide

/-- C8: JSON unmarshaling rejects single-digit unquoted numbers.  The
identifier 7 marshals to the decimal JSON string "7" (with quotes), and the
quoted form unmarshals back, but the unquoted number form `7` -- a single
byte, valid JSON, and accepted by the decimal parser itself -- is rejected
by the length guard `len(data) < 2`. -/
theorem single_digit_number_form_rejected :
    MarshalJSON 7 = ['"', '7', '"'] ∧
    UnmarshalJSON ['"', '7', '"'] = .ok 7 ∧
    goParseInt 10 ['7'] = .ok 7 ∧
    UnmarshalJSON ['7'] = .error () := by decide


/-- Truncating division of casts of naturals is the natural division. -/
theorem tdiv_natCast (a b : Nat) :
    Int.tdiv (a : Int) (b : Int) = ((a / b : Nat) : Int) := rfl

/-- Truncating division by two successive non-negative divisors is division
by their product (all operands non-negative). -/
theorem tdiv_tdiv_of_nonneg (a m k : Int) (ha : 0 ≤ a) (hm : 0 ≤ m)
    (hk : 0 ≤ k) : Int.tdiv (Int.tdiv a m) k = Int.tdiv a (m * k) := by
  obtain ⟨a', rfl⟩ : ∃ n : Nat, a = n := ⟨a.toNat, (Int.toNat_of_nonneg ha).symm⟩
  obtain ⟨m', rfl⟩ : ∃ n : Nat, m = n := ⟨m.toNat, (Int.toNat_of_nonneg hm).symm⟩
  obtain ⟨k', rfl⟩ : ∃ n : Nat, k = n := ⟨k.toNat, (Int.toNat_of_nonneg hk).symm⟩
  have hmk : (m' : Int) * (k' : Int) = ((m' * k' : Nat) : Int) := by
    push_cast; ring
  rw [hmk, tdiv_natCast, tdiv_natCast, tdiv_natCast,
    Nat.div_div_eq_div_mul]

/-- Wait events already performed stay in the log `withLog` produces. -/
theorem withLog_mem (log : List WaitEvt) (r : EmitResult) (x : WaitEvt)
    (hx : x ∈ log) : x ∈ (withLog log r).log := by
  simp [withLog, List.mem_append, hx]


/-- C4: clock-regression handling in single emission.  When the first clock
reading `t0` is behind `lastTimestamp` (with a whole-millisecond time unit
and a non-negative tolerance, as every constructed generator has), the
drift-recovery sleep of `diff * timeUnit` is performed if and only if the
drift `diff` is at most the tolerance converted to time units
(`maxClockBackward / timeUnit`); if the drift exceeds the tolerance, or the
re-read clock `t1` is still behind after the sleep, the emission fails with
the `ClockRegressed` error carrying `recovered = false`, emits no
identifier, and mutates neither `lastTimestamp` nor `sequence`. -/
theorem drift_recovery_iff_within_tolerance (g : Gen) (clock : Nat → Int)
    (fuel : Nat) (t0 t1 diff tol : Int)
    (ht0 : g.currentTimestamp clock 0 = (t0, 1))
    (ht1 : g.currentTimestamp clock 1 = (t1, 2))
    (hdiff : diff = g.lastTimestamp - t0)
    (htol : tol = Int.tdiv g.maxClockBackward g.timeUnit)
    (hreg : t0 < g.lastTimestamp)
    (hmcb : 0 ≤ g.maxClockBackward)
    (hunit : ∃ k : Int, 0 < k ∧ g.timeUnit = k * 1000000) :
    ((WaitEvt.driftSleep (diff * g.timeUnit)
        ∈ (generateInt64WithContext g clock ctxNever 0 0 fuel).log)
      ↔ diff ≤ tol) ∧
    (tol < diff →
      (generateInt64WithContext g clock ctxNever 0 0 fuel).result
        = some (.error (.clockMovedBack (newClockError t0 g.lastTimestamp
            (durMilliseconds g.maxClockBackward) g.workerID false))) ∧
      (generateInt64WithContext g clock ctxNever 0 0 fuel).gen.lastTimestamp
        = g.lastTimestamp ∧
      (generateInt64WithContext g clock ctxNever 0 0 fuel).gen.sequence
        = g.sequence ∧
      (generateInt64WithContext g clock ctxNever 0 0 fuel).log = []) ∧
    (diff ≤ tol → t1 < g.lastTimestamp →
      (generateInt64WithContext g clock ctxNever 0 0 fuel).result
        = some (.error (.clockMovedBack (newClockError t1 g.lastTimestamp
            (durMilliseconds g.maxClockBackward) g.workerID false))) ∧
      (generateInt64WithContext g clock ctxNever 0 0 fuel).gen.lastTimestamp
        = g.lastTimestamp ∧
      (generateInt64WithContext g clock ctxNever 0 0 fuel).gen.sequence
        = g.sequence ∧
      (generateInt64WithContext g clock ctxNever 0 0 fuel).log
        = [WaitEvt.driftSleep (diff * g.timeUnit)]) := by
  obtain ⟨k, hk, hu⟩ := hunit
  -- the tolerance the code computes in milliseconds equals the claim's
  -- duration ratio
  have hms : durMilliseconds g.timeUnit = k := by
    rw [durMilliseconds, hu]
    exact Int.mul_tdiv_cancel k (by norm_num)
  have hcode : Int.tdiv (durMilliseconds g.maxClockBackward)
      (durMilliseconds g.timeUnit) = tol := by
    rw [htol, hms, durMilliseconds,
      tdiv_tdiv_of_nonneg _ _ _ hmcb (by norm_num) (le_of_lt hk), hu]
    ring_nf
  have hcan : ∀ i, ctxNever i = false := fun _ => rfl
  have ht0r : currentTimestampRaw g.timeUnitShift g.timeUnit clock 0
      = (t0, 1) := ht0
  have ht1r : currentTimestampRaw g.timeUnitShift g.timeUnit clock 1
      = (t1, 2) := ht1
  simp only [generateInt64WithContext, Gen.currentTimestamp, hcan,
    Bool.false_eq_true, if_false, ht0r, ht1r, hcode]
  rw [if_pos hreg]
  simp only [← hdiff]
  by_cases hd : diff ≤ tol
  · rw [if_pos hd]
    by_cases hstill : t1 < g.lastTimestamp
    · rw [if_pos hstill]
      refine ⟨by simp [hd], fun hlt => absurd hd (by omega), fun _ _ => ?_⟩
      exact ⟨rfl, rfl, rfl, rfl⟩
    · rw [if_neg hstill]
      refine ⟨?_, fun hlt => absurd hd (by omega), fun _ h1 => absurd h1 hstill⟩
      simp only [hd, iff_true]
      exact withLog_mem _ _ _ (by simp)
  · rw [if_neg hd]
    refine ⟨by simp [hd], fun _ => ⟨rfl, rfl, rfl, rfl⟩,
      fun h1 _ => absurd h1 hd⟩

/-- C4 witness: a default-layout generator whose `lastTimestamp` is 10 ms
ahead of the stuck clock (drift 9 above the tolerance 5) fails with the
`ClockRegressed` error, `recovered = false`, leaving state untouched. -/
theorem drift_recovery_witness :
    (generateInt64WithContext (defaultGenAt 1704067200010 0) clockStuck
        ctxNever 0 0 1).result
      = some (.error (.clockMovedBack
          ⟨1704067200001, 1704067200010, 9, 5, 0, false⟩)) ∧
    (generateInt64WithContext (defaultGenAt 1704067200010 0) clockStuck
        ctxNever 0 0 1).gen.lastTimestamp = 1704067200010 ∧
    (generateInt64WithContext (defaultGenAt 1704067200010 0) clockStuck
        ctxNever 0 0 1).log = [] := by
  have h := drift_recovery_iff_within_tolerance (defaultGenAt 1704067200010 0)
    clockStuck 1 1704067200001 1704067200001 9 5 (by decide) (by decide)
    (by decide) (by decide) (by decide) (by decide)
    ⟨1, by decide, by decide⟩
  obtain ⟨-, h2, -⟩ := h
  obtain ⟨hr, hl, -, hlog⟩ := h2 (by decide)
  refine ⟨?_, by rw [hl]; rfl, hlog⟩
  rw [hr]; rfl


/-! ## Round-trip lemmas for the loop-based codecs -/

theorem decodeLoop_append (base : Int) (lookup : Char → Option Nat)
    (maxSafe : Int) (acc : Int) (xs ys : List Char) :
    decodeLoop base lookup maxSafe acc (xs ++ ys) =
      match decodeLoop base lookup maxSafe acc xs with
      | .ok a => decodeLoop base lookup maxSafe a ys
      | .error e => .error e := by
  induction xs generalizing acc with
  | nil => simp [decodeLoop]
  | cons c rest ih =>
    simp only [List.cons_append, decodeLoop]
    cases lookup c with
    | none => rfl
    | some v =>
      by_cases h : acc > maxSafe
      · simp [h]
      · simp [h, ih]

/-- A value below `b ^ k` has at most `k` base-`b` digits. -/
theorem digits_length_le (b n k : Nat) (hb : 1 < b) (h : n < b ^ k) :
    (Nat.digits b n).length ≤ k := by
  by_cases h0 : n = 0
  · simp [h0]
  by_contra hlt
  push_neg at hlt
  have h2 := Nat.base_pow_length_digits_le b n hb h0
  have h3 : b ^ (k + 1) ≤ b ^ (Nat.digits b n).length :=
    Nat.pow_le_pow_right (by omega) hlt
  have h4 : b * n < b * b ^ k :=
    (Nat.mul_lt_mul_left (by omega : 0 < b)).mpr h
  have h5 : b ^ (k + 1) = b * b ^ k := by rw [pow_succ, mul_comm]
  omega

/-- The shared decoder loop, fed the base-`b` digit string of `n` (most
significant first), recovers `n`: the guard never fires because every prefix
value is at most `(2^63 - 1) / b`. -/
theorem decodeLoop_digits (b : Nat) (hb : 1 < b) (al : List Char) (d0 : Char)
    (lookup : Char → Option Nat)
    (hlook : ∀ d, d < b → lookup (al.getD d d0) = some d) :
    ∀ n : Nat, n < 2 ^ 63 →
      decodeLoop (b : Int) lookup (((2 ^ 63 - 1) / b : Nat) : Int) 0
        (((Nat.digits b n).map (fun d => al.getD d d0)).reverse) =
        .ok (n : Int) := by
  intro n
  induction n using Nat.strong_induction_on with
  | _ n ih =>
    intro hn
    by_cases h0 : n = 0
    · simp [h0, decodeLoop]
    · have hpos : 0 < n := Nat.pos_of_ne_zero h0
      rw [Nat.digits_def' hb hpos, List.map_cons, List.reverse_cons,
        decodeLoop_append]
      have hdivlt : n / b < n := Nat.div_lt_self hpos hb
      rw [ih (n / b) hdivlt (lt_trans hdivlt hn)]
      have hmod : n % b < b := Nat.mod_lt n (by omega)
      have hguard : ¬ ((n / b : Nat) : Int) > (((2 ^ 63 - 1) / b : Nat) : Int) := by
        have : n / b ≤ (2 ^ 63 - 1) / b := Nat.div_le_div_right (by omega)
        push_neg
        exact_mod_cast this
      simp only [decodeLoop, hlook (n % b) hmod, hguard, if_false,
        if_neg hguard]
      have hstep : add64 (mul64 ((n / b : Nat) : Int) (b : Int))
          ((n % b : Nat) : Int) = (n : Int) := by
        have hNat : n / b * b + n % b = n := Nat.div_add_mod' n b
        have harith : ((n / b : Nat) : Int) * (b : Int) + ((n % b : Nat) : Int)
            = (n : Int) := by exact_mod_cast hNat
        rw [mul64, add64_wrap, harith,
          wrap64_of_mem (n : Int)
            (le_trans (by norm_num) (Int.ofNat_nonneg n))
            (by exact_mod_cast hn)]
      rw [hstep]


/-- `encodeBase32` on a positive value is the base-32 digit string, most
significant first (the single-character fast path agrees with it). -/
theorem encodeBase32_pos (w : Int) (h : 0 < w) :
    encodeBase32 w = ((Nat.digits 32 w.toNat).map
      (fun d => encodeBase32Map.getD d 'y')).reverse := by
  unfold encodeBase32
  rw [if_neg (by omega), digitsLSB_eq_digits 32 w.toNat (by norm_num)]
  by_cases h32 : w < 32
  · rw [if_pos h32]
    have hpos : 0 < w.toNat := by omega
    rw [Nat.digits_def' (by norm_num : (1 : Nat) < 32) hpos,
      Nat.mod_eq_of_lt (by omega), Nat.div_eq_of_lt (by omega)]
    simp
  · rw [if_neg h32]

/-- Base32 round trip for every identifier in the signed 64-bit positive
range. -/
theorem decodeBase32_encodeBase32 (w : Int) (h0 : 0 ≤ w) (h1 : w < 2 ^ 63) :
    decodeBase32 (encodeBase32 w) = .ok w := by
  by_cases hz : w = 0
  · subst hz; decide
  · rw [encodeBase32_pos w (by omega), decodeBase32]
    have hlen : (((Nat.digits 32 w.toNat).map
        (fun d => encodeBase32Map.getD d 'y')).reverse).length ≤ 13 := by
      rw [List.length_reverse, List.length_map]
      refine digits_length_le 32 w.toNat 13 (by norm_num) ?_
      calc w.toNat < 2 ^ 63 := by omega
        _ ≤ 32 ^ 13 := by norm_num
    rw [if_neg (by simp only [MaxBase32Len]; omega)]
    have hrt := decodeLoop_digits 32 (by norm_num) encodeBase32Map 'y'
      (decodeMapLookup encodeBase32Map) (by decide) w.toNat (by omega)
    rw [Int.toNat_of_nonneg h0] at hrt
    norm_num at hrt ⊢
    exact hrt


/-- `encodeBase58` on a positive value is the base-58 digit string, most
significant first. -/
theorem encodeBase58_pos (w : Int) (h : 0 < w) :
    encodeBase58 w = ((Nat.digits 58 w.toNat).map
      (fun d => encodeBase58Map.getD d '1')).reverse := by
  unfold encodeBase58
  rw [if_neg (by omega), digitsLSB_eq_digits 58 w.toNat (by norm_num)]
  by_cases h58 : w < 58
  · rw [if_pos h58]
    have hpos : 0 < w.toNat := by omega
    rw [Nat.digits_def' (by norm_num : (1 : Nat) < 58) hpos,
      Nat.mod_eq_of_lt (by omega), Nat.div_eq_of_lt (by omega)]
    simp
  · rw [if_neg h58]

/-- Base58 round trip for every identifier in the signed 64-bit positive
range. -/
theorem decodeBase58_encodeBase58 (w : Int) (h0 : 0 ≤ w) (h1 : w < 2 ^ 63) :
    decodeBase58 (encodeBase58 w) = .ok w := by
  by_cases hz : w = 0
  · subst hz; decide
  · rw [encodeBase58_pos w (by omega), decodeBase58]
    have hlen : (((Nat.digits 58 w.toNat).map
        (fun d => encodeBase58Map.getD d '1')).reverse).length ≤ 11 := by
      rw [List.length_reverse, List.length_map]
      refine digits_length_le 58 w.toNat 11 (by norm_num) ?_
      calc w.toNat < 2 ^ 63 := by omega
        _ ≤ 58 ^ 11 := by norm_num
    rw [if_neg (by simp only [MaxBase58Len]; omega)]
    have hrt := decodeLoop_digits 58 (by norm_num) encodeBase58Map '1'
      (decodeMapLookup encodeBase58Map) (by decide) w.toNat (by omega)
    rw [Int.toNat_of_nonneg h0] at hrt
    norm_num at hrt ⊢
    exact hrt

/-- `encodeBase62` on a positive value is the base-62 digit string, most
significant first. -/
theorem encodeBase62_pos (w : Int) (h : 0 < w) :
    encodeBase62 w = ((Nat.digits 62 w.toNat).map
      (fun d => encodeBase62Map.getD d '0')).reverse := by
  unfold encodeBase62
  rw [if_neg (by omega), digitsLSB_eq_digits 62 w.toNat (by norm_num)]
  by_cases h62 : w < 62
  · rw [if_pos h62]
    have hpos : 0 < w.toNat := by omega
    rw [Nat.digits_def' (by norm_num : (1 : Nat) < 62) hpos,
      Nat.mod_eq_of_lt (by omega), Nat.div_eq_of_lt (by omega)]
    simp
  · rw [if_neg h62]

/-- Base62 round trip for every identifier in the signed 64-bit positive
range. -/
theorem decodeBase62_encodeBase62 (w : Int) (h0 : 0 ≤ w) (h1 : w < 2 ^ 63) :
    decodeBase62 (encodeBase62 w) = .ok w := by
  by_cases hz : w = 0
  · subst hz; decide
  · rw [encodeBase62_pos w (by omega), decodeBase62]
    have hlen : (((Nat.digits 62 w.toNat).map
        (fun d => encodeBase62Map.getD d '0')).reverse).length ≤ 11 := by
      rw [List.length_reverse, List.length_map]
      refine digits_length_le 62 w.toNat 11 (by norm_num) ?_
      calc w.toNat < 2 ^ 63 := by omega
        _ ≤ 62 ^ 11 := by norm_num
    rw [if_neg (by simp only [MaxBase62Len]; omega)]
    have hrt := decodeLoop_digits 62 (by norm_num) encodeBase62Map '0'
      (decodeMapLookup encodeBase62Map) (by decide) w.toNat (by omega)
    rw [Int.toNat_of_nonneg h0] at hrt
    norm_num at hrt ⊢
    exact hrt

/-- `encodeHex` on a positive value is the base-16 digit string, most
significant first. -/
theorem encodeHex_pos (w : Int) (h : 0 < w) :
    encodeHex w = ((Nat.digits 16 w.toNat).map
      (fun d => encodeHexMap.getD d '0')).reverse := by
  unfold encodeHex
  rw [if_neg (by omega), if_neg (by omega),
    digitsLSB_eq_digits 16 w.toNat (by norm_num)]

/-- Hex round trip for every identifier in the signed 64-bit positive
range. -/
theorem decodeHex_encodeHex (w : Int) (h0 : 0 ≤ w) (h1 : w < 2 ^ 63) :
    decodeHex (encodeHex w) = .ok w := by
  by_cases hz : w = 0
  · subst hz; decide
  · rw [encodeHex_pos w (by omega), decodeHex]
    have hlen : (((Nat.digits 16 w.toNat).map
        (fun d => encodeHexMap.getD d '0')).reverse).length ≤ 16 := by
      rw [List.length_reverse, List.length_map]
      refine digits_length_le 16 w.toNat 16 (by norm_num) ?_
      calc w.toNat < 2 ^ 63 := by omega
        _ ≤ 16 ^ 16 := by norm_num
    rw [if_neg (by simp only [MaxHexLen]; omega)]
    have hrt := decodeLoop_digits 16 (by norm_num) encodeHexMap '0'
      decodeHexLookup (by decide) w.toNat (by omega)
    rw [Int.toNat_of_nonneg h0] at hrt
    norm_num at hrt ⊢
    exact hrt


/-! ## Round-trip lemmas for the strconv-backed codecs -/

/-- Folding `a * b + d` over a reversed digit list evaluates the digits most
significant first. -/
theorem foldl_mul_add_reverse (b : Nat) (L : List Nat) (acc : Nat) :
    L.reverse.foldl (fun a d => a * b + d) acc =
      acc * b ^ L.length + Nat.ofDigits b L := by
  induction L generalizing acc with
  | nil => simp
  | cons d t ih =>
    rw [List.reverse_cons, List.foldl_append, ih]
    simp only [List.foldl, List.length_cons, Nat.ofDigits_cons]
    ring_nf

/-- Every `strconv` digit character below 36 parses back to its value. -/
theorem formatDigits_val : ∀ d, d < 36 →
    goDigitVal (formatDigits.getD d '0') = some d := by decide

/-- `strconv` digit characters are not sign characters. -/
theorem formatDigits_ne_sign : ∀ d, d < 36 →
    formatDigits.getD d '0' ≠ '+' ∧ formatDigits.getD d '0' ≠ '-' := by
  decide

/-- The accumulating loop of `digitsValue`, fed digit characters of values
below the base, computes the exact most-significant-first value. -/
theorem digitsValue_digits (b : Nat) (hb36 : b ≤ 36) :
    ∀ (L : List Nat) (acc : Nat), (∀ d ∈ L, d < b) →
      List.foldl (fun acc c =>
          acc.bind fun a => (goDigitVal c).bind fun v =>
            if v < b then some (a * b + v) else none)
        (some acc) (L.map (fun d => formatDigits.getD d '0')) =
      some (L.foldl (fun a d => a * b + d) acc) := by
  intro L
  induction L with
  | nil => intro acc _; rfl
  | cons d t ih =>
    intro acc hL
    have hd : d < b := hL d (List.mem_cons_self d t)
    rw [List.map_cons, List.foldl_cons]
    simp only [Option.bind, formatDigits_val d (by omega), if_pos hd]
    exact ih (acc * b + d) (fun x hx => hL x (List.mem_cons_of_mem d hx))

/-- `strconv.ParseInt` inverts `strconv.FormatInt` on the signed 64-bit
positive range, for any base between 2 and 36. -/
theorem goParseInt_goFormatInt (b : Nat) (hb2 : 2 ≤ b) (hb36 : b ≤ 36)
    (w : Int) (h0 : 0 ≤ w) (h1 : w < 2 ^ 63) :
    goParseInt b (goFormatInt b w) = .ok w := by
  rw [goFormatInt, if_neg (by omega)]
  by_cases hz : w.toNat = 0
  · have hw : w = 0 := by omega
    subst hw
    have hfmt : formatNat b (Int.toNat 0) = ['0'] := by
      rw [formatNat]; norm_num
    rw [hfmt, goParseInt, if_neg (by simp)]
    simp only [List.headD_cons,
      if_neg (by decide : ¬ ('0' : Char) = '+'),
      if_neg (by decide : ¬ ('0' : Char) = '-')]
    rw [if_neg (by simp)]
    have hdv : digitsValue b ['0'] = some 0 := by
      rw [digitsValue]
      simp only [List.foldl, Option.bind,
        (by decide : goDigitVal '0' = some 0), if_pos (by omega : 0 < b)]
      simp
    rw [hdv]
    norm_num
  · rw [formatNat, if_neg hz, digitsLSB_eq_digits b w.toNat (by omega),
      ← List.map_reverse]
    set L := (Nat.digits b w.toNat).reverse with hLdef
    have hLd : ∀ d ∈ L, d < b := by
      intro d hd
      exact Nat.digits_lt_base (by omega) (List.mem_reverse.mp hd)
    have hne : L.map (fun d => formatDigits.getD d '0') ≠ [] := by
      simp [hLdef, Nat.digits_ne_nil_iff_ne_zero.mpr hz]
    obtain ⟨c, cs, hcons⟩ := List.exists_cons_of_ne_nil hne
    have hcmem : c ∈ L.map (fun d => formatDigits.getD d '0') := by
      rw [hcons]; exact List.mem_cons_self c cs
    obtain ⟨d, hdmem, hdc⟩ := List.mem_map.mp hcmem
    have hdlt : d < 36 := lt_of_lt_of_le (hLd d hdmem) hb36
    rw [goParseInt, if_neg hne, hcons]
    simp only [List.headD,
      if_neg (hdc ▸ (formatDigits_ne_sign d hdlt).1),
      if_neg (hdc ▸ (formatDigits_ne_sign d hdlt).2)]
    rw [if_neg (by simp), ← hcons]
    have hdv : digitsValue b (L.map (fun d => formatDigits.getD d '0'))
        = some w.toNat := by
      rw [digitsValue, digitsValue_digits b hb36 L 0 hLd, hLdef,
        foldl_mul_add_reverse]
      simp [Nat.ofDigits_digits]
    rw [hdv]
    have hbound : ¬ (w.toNat ≥ 2 ^ 63) := by omega
    simp [hbound, Int.toNat_of_nonneg h0]
    omega


/-! ## Round-trip lemmas for base64 and the binary representation -/

theorem b64Std_lookup : ∀ v, v < 64 →
    base64StdAlphabet.indexOf? (base64StdAlphabet.getD v 'A') = some v := by
  decide

theorem b64Std_ne_pad : ∀ v, v < 64 →
    base64StdAlphabet.getD v 'A' ≠ '=' := by decide

theorem b64URL_lookup : ∀ v, v < 64 →
    base64URLAlphabet.indexOf? (base64URLAlphabet.getD v 'A') = some v := by
  decide

theorem b64URL_ne_pad : ∀ v, v < 64 →
    base64URLAlphabet.getD v 'A' ≠ '=' := by decide

/-- Base64 decoding inverts encoding, for any padding-free alphabet whose
lookup inverts indexing (block-by-block induction). -/
theorem b64Decode_b64Encode (al : List Char)
    (hal : ∀ v, v < 64 → al.indexOf? (al.getD v 'A') = some v)
    (hne : ∀ v, v < 64 → al.getD v 'A' ≠ '=') :
    ∀ bs : List Nat, (∀ x ∈ bs, x < 256) →
      b64Decode al (b64Encode al bs) = some bs
  | [], _ => rfl
  | [a], h => by
    have ha : a < 256 := h a (by simp)
    have h1 : a / 4 < 64 := by omega
    have h2 : a % 4 * 16 < 64 := by omega
    simp only [b64Encode, b64Decode, hal _ h1, hal _ h2]
    rw [if_pos (by simp)]
    simp only [Option.some.injEq, List.cons.injEq, and_true]
    omega
  | [a, b], h => by
    have ha : a < 256 := h a (by simp)
    have hb : b < 256 := h b (by simp)
    have hne' : ∀ v, v < 64 → al[v]?.getD 'A' ≠ '=' := by
      intro v hv
      have hx := hne v hv
      simpa [List.getD] using hx
    have h1 : a / 4 < 64 := by omega
    have h2 : a % 4 * 16 + b / 16 < 64 := by omega
    have h3 : b % 16 * 4 < 64 := by omega
    simp only [b64Encode, b64Decode, hal _ h1, hal _ h2]
    rw [if_neg (by simp [hne' _ h3]), if_pos (by simp), hal _ h3]
    simp only [Option.some.injEq, List.cons.injEq, and_true]
    omega
  | a :: b :: c :: rest, h => by
    have ha : a < 256 := h a (by simp)
    have hb : b < 256 := h b (by simp)
    have hc : c < 256 := h c (by simp)
    have hne' : ∀ v, v < 64 → al[v]?.getD 'A' ≠ '=' := by
      intro v hv
      have hx := hne v hv
      simpa [List.getD] using hx
    have h1 : a / 4 < 64 := by omega
    have h2 : a % 4 * 16 + b / 16 < 64 := by omega
    have h3 : b % 16 * 4 + c / 64 < 64 := by omega
    have h4 : c % 64 < 64 := by omega
    simp only [b64Encode, b64Decode, hal _ h1, hal _ h2]
    rw [if_neg (by simp [hne' _ h3]), if_neg (by simp [hne' _ h4]),
      hal _ h3, hal _ h4,
      b64Decode_b64Encode al hal hne rest
        (fun x hx => h x (by simp [hx]))]
    simp only [Option.map_some', Option.some.injEq, List.cons.injEq]
    refine ⟨by omega, by omega, by omega, trivial⟩


/-- Every character `FormatInt` can produce is an ASCII byte and survives
the byte/character round trip. -/
theorem formatDigits_getD_char : ∀ d : Nat,
    (formatDigits.getD d '0').toNat < 256 ∧
      Char.ofNat ((formatDigits.getD d '0').toNat) = formatDigits.getD d '0' := by
  intro d
  by_cases h : d < 36
  · exact (by decide : ∀ d, d < 36 → (formatDigits.getD d '0').toNat < 256 ∧
      Char.ofNat ((formatDigits.getD d '0').toNat) = formatDigits.getD d '0')
      d h
  · rw [List.getD_eq_default _ _ (by
      have : formatDigits.length = 36 := by decide
      omega)]
    decide

/-- Characters of a formatted non-negative decimal value are ASCII bytes
that survive the byte/character round trip. -/
theorem goFormatInt_chars (b : Nat) (w : Int) (h0 : 0 ≤ w) :
    ∀ c ∈ goFormatInt b w, c.toNat < 256 ∧ Char.ofNat c.toNat = c := by
  rw [goFormatInt, if_neg (by omega)]
  intro c hc
  rw [formatNat] at hc
  by_cases hz : w.toNat = 0
  · rw [if_pos hz] at hc
    simp only [List.mem_singleton] at hc
    subst hc
    decide
  · rw [if_neg hz] at hc
    rw [List.mem_reverse] at hc
    obtain ⟨d, -, rfl⟩ := List.mem_map.mp hc
    exact formatDigits_getD_char d

/-- The decimal-string bytes of a non-negative identifier are ASCII and map
back to the decimal string. -/
theorem IDBytes_ofNat (w : Int) (h0 : 0 ≤ w) :
    (IDBytes w).map Char.ofNat = IDString w := by
  rw [IDBytes, IDString, List.map_map]
  calc (goFormatInt 10 w).map (Char.ofNat ∘ Char.toNat)
      = (goFormatInt 10 w).map id :=
        List.map_congr_left fun c hc => (goFormatInt_chars 10 w h0 c hc).2
    _ = goFormatInt 10 w := List.map_id _

theorem IDBytes_lt (w : Int) (h0 : 0 ≤ w) : ∀ x ∈ IDBytes w, x < 256 := by
  intro x hx
  rw [IDBytes] at hx
  obtain ⟨c, hc, rfl⟩ := List.mem_map.mp hx
  exact (goFormatInt_chars 10 w h0 c hc).1

/-- Base64 round trip of the identifier codec (standard alphabet). -/
theorem ParseBase64_IDBase64 (w : Int) (h0 : 0 ≤ w) (h1 : w < 2 ^ 63) :
    ParseBase64 (IDBase64 w) = .ok w := by
  rw [ParseBase64, IDBase64,
    b64Decode_b64Encode base64StdAlphabet b64Std_lookup b64Std_ne_pad
      (IDBytes w) (IDBytes_lt w h0)]
  dsimp only
  rw [ParseBytes, IDBytes_ofNat w h0, ParseString, IDString]
  exact goParseInt_goFormatInt 10 (by norm_num) (by norm_num) w h0 h1

/-- Base64 round trip of the identifier codec (URL-safe alphabet). -/
theorem ParseBase64URL_IDBase64URL (w : Int) (h0 : 0 ≤ w) (h1 : w < 2 ^ 63) :
    ParseBase64URL (IDBase64URL w) = .ok w := by
  rw [ParseBase64URL, IDBase64URL,
    b64Decode_b64Encode base64URLAlphabet b64URL_lookup b64URL_ne_pad
      (IDBytes w) (IDBytes_lt w h0)]
  dsimp only
  rw [ParseBytes, IDBytes_ofNat w h0, ParseString, IDString]
  exact goParseInt_goFormatInt 10 (by norm_num) (by norm_num) w h0 h1

/-- The 8-byte big-endian representation parses back to the identifier. -/
theorem ParseIntBytes_IntBytes (w : Int) (h0 : 0 ≤ w) (h1 : w < 2 ^ 63) :
    ParseIntBytes (IntBytes w) = w := by
  rw [IntBytes, ParseIntBytes]
  have hb : bits64 w = w.toNat := by
    have h2 := bits64_eq w
    have h3 : w % 2 ^ 64 = w := Int.emod_eq_of_lt h0 (by omega)
    omega
  rw [hb]
  simp only [List.foldl]
  unfold fromBits64
  split <;> omega


/-- C5: encoding round trip.  For every identifier word in the signed
64-bit positive range, decoding the encoding returns the word with no
error, for each of the ten codecs: Base2 and Base36 and the decimal form
(`strconv.FormatInt` / `strconv.ParseInt`), the custom Base32, Base58,
Base62 and Hex codecs, Base64 and Base64URL (which operate on the
decimal-string bytes, see C7, and are inverted by their matching parsers),
and the 8-byte big-endian binary form. -/
theorem encoding_roundtrip_all (w : Int) (h0 : 0 ≤ w) (h1 : w < 2 ^ 63) :
    goParseInt 2 (goFormatInt 2 w) = .ok w ∧
    decodeBase32 (encodeBase32 w) = .ok w ∧
    goParseInt 36 (goFormatInt 36 w) = .ok w ∧
    decodeBase58 (encodeBase58 w) = .ok w ∧
    decodeBase62 (encodeBase62 w) = .ok w ∧
    ParseBase64 (IDBase64 w) = .ok w ∧
    ParseBase64URL (IDBase64URL w) = .ok w ∧
    decodeHex (encodeHex w) = .ok w ∧
    ParseString (IDString w) = .ok w ∧
    ParseIntBytes (IntBytes w) = w :=
  ⟨goParseInt_goFormatInt 2 (by norm_num) (by norm_num) w h0 h1,
   decodeBase32_encodeBase32 w h0 h1,
   goParseInt_goFormatInt 36 (by norm_num) (by norm_num) w h0 h1,
   decodeBase58_encodeBase58 w h0 h1,
   decodeBase62_encodeBase62 w h0 h1,
   ParseBase64_IDBase64 w h0 h1,
   ParseBase64URL_IDBase64URL w h0 h1,
   decodeHex_encodeHex w h0 h1,
   goParseInt_goFormatInt 10 (by norm_num) (by norm_num) w h0 h1,
   ParseIntBytes_IntBytes w h0 h1⟩

/-- C5 witness: the round trips evaluated at the concrete identifier 3. -/
theorem encoding_roundtrip_witness :
    goParseInt 2 (goFormatInt 2 3) = .ok 3 ∧
    decodeBase32 (encodeBase32 3) = .ok 3 ∧
    goParseInt 36 (goFormatInt 36 3) = .ok 3 ∧
    decodeBase58 (encodeBase58 3) = .ok 3 ∧
    decodeBase62 (encodeBase62 3) = .ok 3 ∧
    ParseBase64 (IDBase64 3) = .ok 3 ∧
    ParseBase64URL (IDBase64URL 3) = .ok 3 ∧
    decodeHex (encodeHex 3) = .ok 3 ∧
    ParseString (IDString 3) = .ok 3 ∧
    ParseIntBytes (IntBytes 3) = 3 :=
  encoding_roundtrip_all 3 (by decide) (by decide)

end Snowflake
